import Mathlib

/-!
# Verification of the scaleup dashboard data pipeline

Shallow embedding of the data pipeline of `src/app.py`: a table is loaded,
a fixed list of columns is coerced to numeric values (unparseable cells
become the missing-value marker, modelling `pd.to_numeric(..., errors='coerce')`),
rows are grouped by the `Primary Industry Group` column and four statistics
(mean, median, std, count) are computed per numeric column per group with
flattened, sanitized column names; a callback produces a box-plot spec and a
group-size bar-chart spec from the cleaned table; a second callback serializes
the grouped table to CSV (`grouped.reset_index().to_csv`).

Numeric cells are modelled as exact rationals (the code uses floating point);
the sample standard deviation is represented exactly: a rational value when the
variance is a perfect rational square, and the constructor `Cell.sqrtv v`
(denoting the real square root of `v`) otherwise.
-/

set_option maxRecDepth 8000

namespace ScaleupApp

/-- A cell of a data table: a numeric value, a raw string, the missing-value
marker (pandas `NaN`), or `sqrtv v`, denoting the (possibly irrational) real
square root of the rational `v` (used only for the sample standard deviation). -/
inductive Cell where
  | num (q : ℚ)
  | str (s : String)
  | missing
  | sqrtv (v : ℚ)
deriving DecidableEq, Repr

/-- A data table: a header of column names and a list of rows, each row a list
of cells aligned with the header. Models a `pandas.DataFrame`. -/
structure Table where
  cols : List String
  rows : List (List Cell)
deriving DecidableEq, Repr

/-- Every row has exactly one cell per column. -/
def Table.WellFormed (t : Table) : Prop :=
  ∀ r ∈ t.rows, r.length = t.cols.length

instance (t : Table) : Decidable t.WellFormed := by
  unfold Table.WellFormed; infer_instance

/-- Index of the first occurrence of a string in a list (models label lookup
on a pandas index / column axis). -/
def idxOf? (g : String) : List String → Option Nat
  | [] => none
  | a :: l => if a = g then some 0 else (idxOf? g l).map (· + 1)

/-- The cell of row `r` at the column labelled `c` of table `t`. -/
def rowCell (t : Table) (r : List Cell) (c : String) : Cell :=
  match idxOf? c t.cols with
  | some i => r.getD i Cell.missing
  | none => Cell.missing

/-- The cell at row index `i`, column index `j`. -/
def cellAt (t : Table) (i j : Nat) : Cell :=
  (t.rows.getD i []).getD j Cell.missing

/-! ## Numeric parsing (models `pd.to_numeric` on a single value) -/

/-- Whitespace test for trimming. -/
def isWs (c : Char) : Bool :=
  c == ' ' || c == '\t' || c == '\n' || c == '\r'

/-- Remove leading and trailing whitespace. -/
def trimWs (l : List Char) : List Char :=
  ((l.dropWhile isWs).reverse.dropWhile isWs).reverse

/-- Split a character list at every `'.'`. -/
def splitDot (l : List Char) : List (List Char) :=
  l.foldr (fun c acc =>
    if c = '.' then [] :: acc
    else match acc with
      | [] => [[c]]
      | h :: tl => (c :: h) :: tl) [[]]

/-- Value of a digit string; `none` if any character is not a digit.
The empty list yields `some 0` (callers guard emptiness). -/
def digitsVal? (l : List Char) : Option Nat :=
  l.foldlM (fun acc c => if c.isDigit then some (acc * 10 + (c.toNat - 48)) else none) 0

/-- Parse a decimal literal with optional sign and fractional part, as pandas
numeric coercion accepts (`"10"`, `"-3.5"`, `" 1. "`, `".5"`); anything else
fails. -/
def parseNumeric (s : String) : Option ℚ :=
  let l := trimWs s.toList
  let sb : ℚ × List Char :=
    match l with
    | '-' :: rest => (-1, rest)
    | '+' :: rest => (1, rest)
    | _ => (1, l)
  match splitDot sb.2 with
  | [ip] =>
      if ip.isEmpty then none
      else (digitsVal? ip).map (fun n => sb.1 * (n : ℚ))
  | [ip, fp] =>
      if ip.isEmpty && fp.isEmpty then none
      else
        match digitsVal? ip, digitsVal? fp with
        | some n, some m => some (sb.1 * ((n : ℚ) + (m : ℚ) / ((10 : ℚ) ^ fp.length)))
        | _, _ => none
  | _ => none

/-- The numeric reading of a cell: a numeric cell is itself, a string cell is
parsed, anything else has none. -/
def numericVal? : Cell → Option ℚ
  | Cell.num q => some q
  | Cell.str s => parseNumeric s
  | _ => none

/-- Coercion of one cell, modelling `pd.to_numeric(x, errors='coerce')`:
a parseable value becomes its number, everything else the missing marker. -/
def coerceCell (c : Cell) : Cell :=
  match numericVal? c with
  | some q => Cell.num q
  | none => Cell.missing

/-! ## The numeric coercion stage (`for col in columns_to_convert: ...`) -/

/-- The fixed target column list of `app.py` (`columns_to_convert`). -/
def columns_to_convert : List String :=
  ["First Financing Size", "First Financing Valuation",
   "Revenue", "Revenue Growth %", "Net Income", "Net Debt", "Market Cap",
   "Gross Profit", "Enterprise Value", "EBITDA", "EBIT",
   "Total Patent Document", "Total Clinical Trials", "#Active Investors"]

/-- `df_top[col] = pd.to_numeric(df_top[col], errors='coerce')` for a single
column: fails (models `KeyError`) when the column is absent. -/
def coerceColumn (t : Table) (c : String) : Except String Table :=
  match idxOf? c t.cols with
  | none => Except.error c
  | some i =>
      Except.ok { cols := t.cols,
                  rows := t.rows.map (fun r => r.set i (coerceCell (r.getD i Cell.missing))) }

/-- The coercion loop over a list of column names. -/
def coerceAll (cs : List String) (t : Table) : Except String Table :=
  match cs with
  | [] => Except.ok t
  | c :: rest =>
      match coerceColumn t c with
      | Except.error e => Except.error e
      | Except.ok t1 => coerceAll rest t1

/-- The full Numeric Coercion Stage of `app.py` (lines 63–64). -/
def coerceStage (t : Table) : Except String Table :=
  coerceAll columns_to_convert t

/-! ## Column-name flattening and sanitization (lines 70 and 73) -/

/-- `'_'.join(col).strip()` followed by
`col.replace(' ', '_').replace('(', '').replace(')', '')`, at character level. -/
def sanitizeChars (l : List Char) : List Char :=
  (((l.map (fun c => if c = ' ' then '_' else c)).filter (fun c => c != '(')).filter
    (fun c => c != ')'))

/-- The flattened, sanitized column name for a (field, statistic) pair. -/
def flatName (f s : String) : String :=
  String.mk (sanitizeChars (trimWs (f ++ "_" ++ s).toList))

/-- The four aggregate statistics, in the order of the `agg` call. -/
def statNames : List String := ["mean", "median", "std", "count"]

/-- The (field, statistic) cross-product in pandas column order. -/
def summaryColsRaw : List (String × String) :=
  columns_to_convert.flatMap (fun f => statNames.map (fun s => (f, s)))

/-- The flattened column names of the grouped summary table. -/
def summaryCols : List String :=
  summaryColsRaw.map (fun p => flatName p.1 p.2)

/-! ## Grouped aggregation stage (line 67) -/

/-- The grouping column of `app.py`. -/
def groupKeyCol : String := "Primary Industry Group"

/-- The string content of a cell, if any. -/
def cellStr? : Cell → Option String
  | Cell.str s => some s
  | _ => none

/-- The group key of a row: the string in the grouping column; a missing or
non-string cell yields `none` (pandas `groupby` drops missing keys). -/
def keyOf? (t : Table) (r : List Cell) : Option String :=
  cellStr? (rowCell t r groupKeyCol)

/-- Strict lexicographic comparison of character lists (by code point). -/
def strLtChars : List Char → List Char → Bool
  | [], [] => false
  | [], _ :: _ => true
  | _ :: _, [] => false
  | a :: as, b :: bs => if a < b then true else if b < a then false else strLtChars as bs

/-- Strict lexicographic comparison of strings. -/
def strLt (a b : String) : Bool := strLtChars a.toList b.toList

/-- The sort order of pandas `groupby`: ascending lexicographic. -/
def keyLe (a b : String) : Prop := strLt b a = false

instance : DecidableRel keyLe :=
  fun a b => inferInstanceAs (Decidable (strLt b a = false))

/-- The distinct group keys observed in the table, sorted ascending
(pandas `groupby` default `sort=True`, `dropna=True`). -/
def groupKeys (t : Table) : List String :=
  List.insertionSort keyLe ((t.rows.filterMap (keyOf? t)).dedup)

/-- The group keys in order of first appearance in the table. -/
def firstAppearanceKeys (t : Table) : List String :=
  (t.rows.filterMap (keyOf? t)).dedup

/-- The rows of the partition with group key `g`. -/
def groupRows (t : Table) (g : String) : List (List Cell) :=
  t.rows.filter (fun r => keyOf? t r == some g)

/-- The cells of column `f` over the partition with key `g`. -/
def fieldValues (t : Table) (g f : String) : List Cell :=
  (groupRows t g).map (fun r => rowCell t r f)

/-- The numeric value of a cell, `none` for everything else. -/
def numOf? : Cell → Option ℚ
  | Cell.num q => some q
  | _ => none

/-- Arithmetic mean of the non-missing values; missing when there are none. -/
def meanCell (l : List ℚ) : Cell :=
  if l.length = 0 then Cell.missing else Cell.num (l.sum / (l.length : ℚ))

/-- Interpolated median of the non-missing values; missing when there are none. -/
def medianCell (l : List ℚ) : Cell :=
  let s := List.insertionSort (· ≤ ·) l
  if s.length = 0 then Cell.missing
  else if s.length % 2 = 1 then Cell.num (s.getD (s.length / 2) 0)
  else Cell.num ((s.getD (s.length / 2 - 1) 0 + s.getD (s.length / 2) 0) / 2)

/-- Sample variance (N−1 denominator); `none` for fewer than two values. -/
def sampleVar? (l : List ℚ) : Option ℚ :=
  if l.length < 2 then none
  else
    let m := l.sum / (l.length : ℚ)
    some ((l.map (fun x => (x - m) * (x - m))).sum / ((l.length : ℚ) - 1))

/-- Integer square root (largest `m` with `m * m ≤ n`), by a bounded scan. -/
def intSqrt (n : Nat) : Nat :=
  ((List.range (n + 2)).takeWhile (fun m => m * m ≤ n)).length - 1

/-- Exact rational square root, when one exists. -/
def ratSqrt? (q : ℚ) : Option ℚ :=
  if q < 0 then none
  else
    let a := intSqrt q.num.toNat
    let b := intSqrt q.den
    if a * a = q.num.toNat ∧ b * b = q.den then some ((a : ℚ) / (b : ℚ)) else none

/-- Sample standard deviation: missing for fewer than two values; otherwise the
square root of the sample variance, kept exact via `Cell.sqrtv` when
irrational. -/
def stdCell (l : List ℚ) : Cell :=
  match sampleVar? l with
  | none => Cell.missing
  | some v =>
      match ratSqrt? v with
      | some r => Cell.num r
      | none => Cell.sqrtv v

/-- One aggregate statistic of a list of cells, dispatched by name as in
`agg(['mean', 'median', 'std', 'count'])`; `count` is the number of
non-missing cells. -/
def aggStat (stat : String) (cells : List Cell) : Cell :=
  let nums := cells.filterMap numOf?
  match stat with
  | "mean" => meanCell nums
  | "median" => medianCell nums
  | "std" => stdCell nums
  | "count" => Cell.num (((cells.filter (fun c => c != Cell.missing)).length : ℚ))
  | _ => Cell.missing

/-- The summary row for group `g`: one cell per (field, statistic) pair. -/
def summaryRow (t : Table) (g : String) : List Cell :=
  summaryColsRaw.map (fun p => aggStat p.2 (fieldValues t g p.1))

/-- The grouped summary table: index of group keys, flattened column names,
one row of statistics per key (the `grouped` DataFrame of `app.py`). -/
structure Summary where
  keys : List String
  cols : List String
  rows : List (List Cell)
deriving DecidableEq, Repr

/-- The Grouped Aggregation Stage (`app.py` lines 67–73). -/
def groupedAgg (t : Table) : Summary :=
  { keys := groupKeys t, cols := summaryCols,
    rows := (groupKeys t).map (summaryRow t) }

/-- Label-based lookup into the summary table (`grouped.loc[g, c]`). -/
def summaryEntry? (s : Summary) (g c : String) : Option Cell :=
  match idxOf? g s.keys, idxOf? c s.cols with
  | some i, some j => some ((s.rows.getD i []).getD j Cell.missing)
  | _, _ => none

/-! ## Reactive update pipeline (`update_graphs`, lines 236–269) -/

/-- The box-plot specification produced by `px.box` plus `update_layout`. -/
structure BoxSpec where
  xField : String
  yField : String
  title : String
  xAxisTitle : String
  yAxisTitle : String
  xData : List Cell
  yData : List Cell
deriving DecidableEq, Repr

/-- The bar-chart specification produced by `px.bar` plus `update_layout`. -/
structure BarSpec where
  xField : String
  yField : String
  title : String
  xAxisTitle : String
  yAxisTitle : String
  data : List (String × Nat)
deriving DecidableEq, Repr

/-- All cells of column `c`, in row order. -/
def colValues (t : Table) (c : String) : List Cell :=
  t.rows.map (fun r => rowCell t r c)

/-- `df_top.groupby('Primary Industry Group').size().reset_index(...)`:
one (key, partition row count) pair per distinct key, in sorted key order. -/
def groupSizes (t : Table) : List (String × Nat) :=
  (groupKeys t).map (fun g => (g, (groupRows t g).length))

/-- The group order a box plot displays: first appearance in the trace data
(plotly default category order). -/
def boxGroupOrder (b : BoxSpec) : List String :=
  (b.xData.filterMap cellStr?).dedup

/-- The `update_graphs` callback: a box plot of the selected column by group,
and a bar chart of per-group row counts. -/
def update_graphs (t : Table) (selected : String) : BoxSpec × BarSpec :=
  ({ xField := groupKeyCol, yField := selected,
     title := "Box Plot of " ++ selected ++ " by Primary Industry Group",
     xAxisTitle := groupKeyCol, yAxisTitle := selected,
     xData := colValues t groupKeyCol, yData := colValues t selected },
   { xField := groupKeyCol, yField := "Company Count",
     title := "Company Count per Primary Industry Group",
     xAxisTitle := groupKeyCol, yAxisTitle := "Company Count",
     data := groupSizes t })

/-- The process-wide state read by the callbacks: the cleaned table and the
grouped summary table, both fixed after startup. -/
structure AppState where
  df_top : Table
  grouped : Summary
deriving DecidableEq, Repr

/-- One selection-change event: `update_graphs` reads the state and builds the
two specs; the state is passed through untouched. -/
def update_graphs_event (st : AppState) (selected : String) :
    (BoxSpec × BarSpec) × AppState :=
  (update_graphs st.df_top selected, st)

/-! ## Export stage (`download_csv`, lines 276–277) -/

/-- Decimal digits of a positive number, most significant first (fuel-driven). -/
def natDigitsAux (fuel n : Nat) : List Char :=
  match fuel with
  | 0 => []
  | fuel' + 1 =>
      if n = 0 then []
      else natDigitsAux fuel' (n / 10) ++ [Char.ofNat (48 + n % 10)]

/-- Decimal representation of a natural number. -/
def natRepr (n : Nat) : String :=
  if n = 0 then "0" else String.mk (natDigitsAux (n + 1) n)

/-- Decimal representation of an integer. -/
def intRepr (i : Int) : String :=
  if i < 0 then "-" ++ natRepr i.natAbs else natRepr i.natAbs

/-- Rendering of a rational for CSV output. The digits pandas would print for
a float are idealized: integral values print as `n.0`, other rationals as
`num/den`. -/
def renderRat (q : ℚ) : String :=
  if q.den = 1 then intRepr q.num ++ ".0" else intRepr q.num ++ "/" ++ natRepr q.den

/-- Rendering of one cell for CSV output; missing values print as the empty
field, as pandas prints `NaN`. -/
def renderCell (c : Cell) : String :=
  match c with
  | Cell.num q => renderRat q
  | Cell.str s => s
  | Cell.missing => ""
  | Cell.sqrtv v => "sqrt(" ++ renderRat v ++ ")"

/-- CSV field quoting: a field containing a comma, quote or newline is wrapped
in double quotes with inner quotes doubled. -/
def csvField (s : String) : String :=
  if s.toList.any (fun c => c == ',' || c == '"' || c == '\n')
  then "\"" ++ String.mk (s.toList.flatMap (fun c => if c = '"' then ['"', '"'] else [c])) ++ "\""
  else s

/-- Join strings with a separator. -/
def joinSep (sep : String) : List String → String
  | [] => ""
  | [x] => x
  | x :: y :: xs => x ++ sep ++ joinSep sep (y :: xs)

/-- The data lines of `to_csv`, starting at positional index `i`: each line is
the index, the group key, then the rendered statistic cells. -/
def csvDataLinesAux (i : Nat) : List (String × List Cell) → List String
  | [] => []
  | (k, r) :: rest =>
      joinSep "," (natRepr i :: csvField k :: r.map (fun c => csvField (renderCell c)))
        :: csvDataLinesAux (i + 1) rest

/-- The data lines of `grouped.reset_index().to_csv`. -/
def csvDataLines (s : Summary) : List String :=
  csvDataLinesAux 0 (s.keys.zip s.rows)

/-- The header line of `grouped.reset_index().to_csv`: an empty name for the
positional index written by pandas, then the restored group-key column, then
the summary column identifiers. -/
def csvHeaderLine (s : Summary) : String :=
  joinSep "," ("" :: csvField groupKeyCol :: s.cols.map csvField)

/-- The full CSV text of `grouped.reset_index().to_csv` (trailing newline
included, as pandas writes one). -/
def csvText (s : Summary) : String :=
  joinSep "\n" (csvHeaderLine s :: csvDataLines s) ++ "\n"

/-- The `download_csv` callback: ignores the click count and returns the fixed
filename with the CSV text; the state is passed through untouched. -/
def download_csv (st : AppState) (n_clicks : Nat) :
    (String × String) × AppState :=
  (("descriptive_statistics.csv", csvText st.grouped), st)

/-- The first line of a string. -/
def firstLine (s : String) : String :=
  String.mk (s.toList.takeWhile (fun c => c ≠ '\n'))

/-! ## A concrete example table, used to evaluate the pipeline -/

/-- A small raw table: a passthrough column, the group key column, and all
fourteen target columns. Group `B` appears before group `A`. -/
def tEx : Table :=
  { cols := ["Company", groupKeyCol] ++ columns_to_convert,
    rows := [[Cell.str "a", Cell.str "B"] ++ List.replicate 14 (Cell.num 1),
             [Cell.str "b", Cell.str "A"] ++ List.replicate 14 (Cell.str "bad"),
             [Cell.str "c", Cell.str "A"] ++ List.replicate 14 (Cell.num 1)] }

/-- The example table after the Numeric Coercion Stage. -/
def tExClean : Table :=
  (coerceStage tEx).toOption.getD { cols := [], rows := [] }

/-- The example application state after startup. -/
def stEx : AppState :=
  { df_top := tExClean, grouped := groupedAgg tExClean }

/-! ## List helper lemmas -/

theorem getD_map_of_lt {α β : Type} (f : α → β) (l : List α) (i : Nat)
    (h : i < l.length) (d : β) (d' : α) :
    (l.map f).getD i d = f (l.getD i d') := by
  induction l generalizing i with
  | nil => simp at h
  | cons a l ih =>
    cases i with
    | zero => rfl
    | succ n => simpa using ih n (by simpa using h)

theorem getD_of_le_length {α : Type} (l : List α) (i : Nat)
    (h : l.length ≤ i) (d : α) : l.getD i d = d := by
  induction l generalizing i with
  | nil => simp [List.getD]
  | cons a l ih =>
    cases i with
    | zero => simp at h
    | succ n => simpa using ih n (by simpa using h)

theorem getD_mem_of_lt {α : Type} (l : List α) (i : Nat)
    (h : i < l.length) (d : α) : l.getD i d ∈ l := by
  induction l generalizing i with
  | nil => simp at h
  | cons a l ih =>
    cases i with
    | zero => simp
    | succ n => exact List.mem_cons_of_mem a (by simpa using ih n (by simpa using h))

theorem getD_set_self {α : Type} (l : List α) (i : Nat) (a : α)
    (h : i < l.length) (d : α) : (l.set i a).getD i d = a := by
  induction l generalizing i with
  | nil => simp at h
  | cons b l ih =>
    cases i with
    | zero => rfl
    | succ n => simpa using ih n (by simpa using h)

theorem getD_set_ne {α : Type} (l : List α) (i j : Nat) (a : α)
    (h : j ≠ i) (d : α) : (l.set i a).getD j d = l.getD j d := by
  induction l generalizing i j with
  | nil => simp
  | cons b l ih =>
    cases i with
    | zero =>
      cases j with
      | zero => exact absurd rfl h
      | succ m => simp
    | succ n =>
      cases j with
      | zero => rfl
      | succ m => simpa using ih n m (fun hm => h (by simp [hm]))

theorem idxOf_mem_spec (g : String) (l : List String) (h : g ∈ l) :
    ∃ i, idxOf? g l = some i ∧ i < l.length ∧ l.getD i "" = g := by
  induction l with
  | nil => simp at h
  | cons a l ih =>
    by_cases hag : a = g
    · exact ⟨0, by simp [idxOf?, hag], by simp, by simp [hag]⟩
    · have hg : g ∈ l := by
        rcases List.mem_cons.mp h with h' | h'
        · exact absurd h'.symm hag
        · exact h'
      obtain ⟨i, h1, h2, h3⟩ := ih hg
      exact ⟨i + 1, by simp [idxOf?, hag, h1], by simpa using h2, by simpa using h3⟩

theorem idxOf_nodup_unique (c : String) (l : List String) (hnd : l.Nodup)
    (i j : Nat) (hi : idxOf? c l = some i) (hj : j < l.length)
    (hq : l.getD j "" = c) : j = i := by
  induction l generalizing i j with
  | nil => simp at hj
  | cons a l ih =>
    by_cases hac : a = c
    · have hi0 : i = 0 := by
        simp [idxOf?, hac] at hi
        omega
      subst hi0
      cases j with
      | zero => rfl
      | succ m =>
        exfalso
        have hm : m < l.length := by simpa using hj
        have : l.getD m "" ∈ l := getD_mem_of_lt l m hm ""
        rw [List.getD_cons_succ] at hq
        rw [hq] at this
        rw [hac] at hnd
        exact (List.nodup_cons.mp hnd).1 this
    · have hi' : ∃ i', idxOf? c l = some i' ∧ i = i' + 1 := by
        simp only [idxOf?, if_neg hac, Option.map_eq_some'] at hi
        obtain ⟨i', h1, h2⟩ := hi
        exact ⟨i', h1, h2.symm⟩
      obtain ⟨i', h1, h2⟩ := hi'
      cases j with
      | zero =>
        exfalso
        exact hac (by simpa using hq)
      | succ m =>
        have := ih (List.nodup_cons.mp hnd).2 i' m h1 (by simpa using hj)
          (by simpa using hq)
        omega

/-! ## Correctness of the Numeric Coercion Stage -/

theorem coerceCell_idem (c : Cell) : coerceCell (coerceCell c) = coerceCell c := by
  rcases h : numericVal? c with _ | q
  · have h1 : coerceCell c = Cell.missing := by unfold coerceCell; rw [h]
    rw [h1]
    rfl
  · have h1 : coerceCell c = Cell.num q := by unfold coerceCell; rw [h]
    rw [h1]
    rfl

theorem coerceColumn_spec (t : Table) (c : String) (hc : c ∈ t.cols)
    (hwf : t.WellFormed) (hnd : t.cols.Nodup) :
    ∃ t1, coerceColumn t c = Except.ok t1 ∧ t1.cols = t.cols ∧
      t1.rows.length = t.rows.length ∧ t1.WellFormed ∧
      ∀ i j, cellAt t1 i j =
        if t.cols.getD j "" = c ∧ j < t.cols.length ∧ i < t.rows.length
        then coerceCell (cellAt t i j) else cellAt t i j := by
  obtain ⟨i0, hidx, hi0, hget⟩ := idxOf_mem_spec c t.cols hc
  set t1 : Table :=
    { cols := t.cols,
      rows := t.rows.map (fun r => r.set i0 (coerceCell (r.getD i0 Cell.missing))) } with ht1
  have he : coerceColumn t c = Except.ok t1 := by
    unfold coerceColumn
    rw [hidx]
  have hlen : t1.rows.length = t.rows.length := by simp [ht1]
  refine ⟨t1, he, rfl, hlen, ?_, ?_⟩
  · intro r hr
    simp only [ht1, List.mem_map] at hr
    obtain ⟨r0, hr0, hr0e⟩ := hr
    have := hwf r0 hr0
    simp [← hr0e, this, ht1]
  · intro i j
    by_cases hi : i < t.rows.length
    · have hrow : t1.rows.getD i [] =
          (t.rows.getD i []).set i0 (coerceCell ((t.rows.getD i []).getD i0 Cell.missing)) :=
        getD_map_of_lt _ t.rows i hi [] []
      have hrlen : (t.rows.getD i []).length = t.cols.length :=
        hwf _ (getD_mem_of_lt t.rows i hi [])
      by_cases hj : j = i0
      · subst hj
        have hcond : t.cols.getD j "" = c ∧ j < t.cols.length ∧ i < t.rows.length :=
          ⟨hget, hi0, hi⟩
        rw [cellAt, hrow, if_pos hcond, cellAt]
        exact getD_set_self (t.rows.getD i []) j _ (by omega) Cell.missing
      · have hcond : ¬(t.cols.getD j "" = c ∧ j < t.cols.length ∧ i < t.rows.length) := by
          rintro ⟨h1, h2, _⟩
          exact hj (idxOf_nodup_unique c t.cols hnd i0 j hidx h2 h1)
        rw [cellAt, hrow, if_neg hcond, cellAt]
        exact getD_set_ne (t.rows.getD i []) i0 j _ hj Cell.missing
    · have h1 : cellAt t1 i j = Cell.missing := by
        rw [cellAt, getD_of_le_length _ i (by omega) []]
        simp [List.getD]
      have h2 : cellAt t i j = Cell.missing := by
        rw [cellAt, getD_of_le_length _ i (by omega) []]
        simp [List.getD]
      rw [h1, h2, if_neg]
      rintro ⟨_, _, h3⟩
      omega

theorem coerceAll_spec (cs : List String) (t : Table)
    (hwf : t.WellFormed) (hnd : t.cols.Nodup) (hsub : ∀ c ∈ cs, c ∈ t.cols) :
    ∃ t2, coerceAll cs t = Except.ok t2 ∧ t2.cols = t.cols ∧
      t2.rows.length = t.rows.length ∧ t2.WellFormed ∧
      ∀ i j, cellAt t2 i j =
        if t.cols.getD j "" ∈ cs ∧ j < t.cols.length ∧ i < t.rows.length
        then coerceCell (cellAt t i j) else cellAt t i j := by
  induction cs generalizing t with
  | nil =>
    exact ⟨t, rfl, rfl, rfl, hwf, fun i j => by simp⟩
  | cons c rest ih =>
    obtain ⟨t1, he1, hcols1, hlen1, hwf1, hcell1⟩ :=
      coerceColumn_spec t c (hsub c (by simp)) hwf hnd
    obtain ⟨t2, he2, hcols2, hlen2, hwf2, hcell2⟩ :=
      ih t1 hwf1 (hcols1 ▸ hnd) (fun d hd => hcols1 ▸ hsub d (by simp [hd]))
    refine ⟨t2, by simp [coerceAll, he1, he2], by rw [hcols2, hcols1],
      by rw [hlen2, hlen1], hwf2, ?_⟩
    intro i j
    have hcell2' := hcell2 i j
    rw [hcols1, hlen1] at hcell2'
    rw [hcell2', hcell1 i j]
    split_ifs
    all_goals first
      | rfl
      | exact coerceCell_idem _
      | (simp only [List.mem_cons] at *; tauto)

/-- C1: for every well-formed input table containing the target columns, the
Numeric Coercion Stage never raises; each cell of a target field that is not a
valid number becomes the missing-value marker, each valid number is coerced to
its numeric value, every cell of a non-target field is unchanged, and the
resulting cleaned table has the same row count and column set as the input. -/
theorem coercion_stage_safe (t : Table)
    (hwf : t.WellFormed) (hnd : t.cols.Nodup)
    (hsub : ∀ c ∈ columns_to_convert, c ∈ t.cols) :
    ∃ t2, coerceStage t = Except.ok t2 ∧
      t2.cols = t.cols ∧ t2.rows.length = t.rows.length ∧
      ∀ i j, i < t.rows.length → j < t.cols.length →
        (t.cols.getD j "" ∈ columns_to_convert →
          (numericVal? (cellAt t i j) = none → cellAt t2 i j = Cell.missing) ∧
          ∀ q, numericVal? (cellAt t i j) = some q → cellAt t2 i j = Cell.num q) ∧
        (t.cols.getD j "" ∉ columns_to_convert → cellAt t2 i j = cellAt t i j) := by
  obtain ⟨t2, he, hcols, hlen, _, hcell⟩ :=
    coerceAll_spec columns_to_convert t hwf hnd hsub
  refine ⟨t2, he, hcols, hlen, ?_⟩
  intro i j hi hj
  constructor
  · intro hmem
    constructor
    · intro hnone
      rw [hcell i j, if_pos ⟨hmem, hj, hi⟩, coerceCell, hnone]
    · intro q hq
      rw [hcell i j, if_pos ⟨hmem, hj, hi⟩, coerceCell, hq]
  · intro hmem
    rw [hcell i j, if_neg (by tauto)]

/-- Witness for C1: the example table satisfies the hypotheses, and the
conclusion holds for it. -/
theorem coercion_stage_safe_witness :
    (tEx.WellFormed ∧ tEx.cols.Nodup ∧ ∀ c ∈ columns_to_convert, c ∈ tEx.cols) ∧
    (∃ t2, coerceStage tEx = Except.ok t2 ∧
      t2.cols = tEx.cols ∧ t2.rows.length = tEx.rows.length ∧
      ∀ i j, i < tEx.rows.length → j < tEx.cols.length →
        (tEx.cols.getD j "" ∈ columns_to_convert →
          (numericVal? (cellAt tEx i j) = none → cellAt t2 i j = Cell.missing) ∧
          ∀ q, numericVal? (cellAt tEx i j) = some q → cellAt t2 i j = Cell.num q) ∧
        (tEx.cols.getD j "" ∉ columns_to_convert → cellAt t2 i j = cellAt tEx i j)) :=
  ⟨⟨by decide, by decide, by decide⟩,
    coercion_stage_safe tEx (by decide) (by decide) (by decide)⟩

/-! ## Column naming (claims C3, C4) -/

/-- Modelled from the spec's words for claim C3: the identifier obtained by
joining field and statistic with an underscore and then deleting every
occurrence of the characters space, `(` and `)`. -/
def specStripName (f s : String) : String :=
  String.mk (((f ++ "_" ++ s).toList).filter (fun c => c != ' ' && c != '(' && c != ')'))

/-- The naming rule the code actually applies, written independently of
`sanitizeChars`: join with an underscore, strip surrounding whitespace, map
every space to an underscore, then delete `(` and `)`. -/
def specColName (f s : String) : String :=
  String.mk (((trimWs ((f ++ "_" ++ s).toList)).map
    (fun c => if c = ' ' then '_' else c)).filter (fun c => c != '(' && c != ')'))

theorem flatName_eq_specColName (f s : String) : flatName f s = specColName f s := by
  unfold flatName specColName sanitizeChars
  rw [List.filter_filter]
  congr 1
  apply List.filter_congr
  intro c _
  cases hp : c != '(' <;> cases hq : c != ')' <;> simp [hp, hq]

/-- C3 counterexample: for the pair (`First Financing Size`, `mean`) of the
cross-product, the produced identifier keeps the spaces as underscores instead
of stripping them, so it differs from the claim's joined-then-stripped string. -/
theorem colname_strip_counterexample :
    ("First Financing Size", "mean") ∈ summaryColsRaw ∧
    flatName "First Financing Size" "mean" = "First_Financing_Size_mean" ∧
    specStripName "First Financing Size" "mean" = "FirstFinancingSize_mean" ∧
    flatName "First Financing Size" "mean" ≠ specStripName "First Financing Size" "mean" ∧
    "First_Financing_Size_mean" ∈ summaryCols ∧
    "FirstFinancingSize_mean" ∉ summaryCols := by decide

/-- C3 (amended): every produced summary column identifier equals the result of
joining the field and statistic names with an underscore, stripping surrounding
whitespace, replacing every space with an underscore, and deleting every
occurrence of `(` and `)`. -/
theorem summary_colnames_rule :
    (∀ t : Table, (groupedAgg t).cols =
      summaryColsRaw.map (fun p => specColName p.1 p.2)) ∧
    ∀ f s : String, flatName f s = specColName f s := by
  constructor
  · intro t
    show summaryCols = _
    unfold summaryCols
    have he : (fun p : String × String => flatName p.1 p.2) =
        (fun p : String × String => specColName p.1 p.2) :=
      funext fun p => flatName_eq_specColName p.1 p.2
    rw [he]
  · exact flatName_eq_specColName

/-- C4: for the actual 14 target fields and the four statistics, the summary
column identifier list has 56 pairwise-distinct entries, none containing a
space, `(` or `)`; and these are exactly the columns the aggregation stage
produces, for every input table. -/
theorem summary_identifier_set_valid :
    summaryCols.length = 56 ∧ summaryCols.Nodup ∧
    (summaryCols.all (fun c =>
      c.toList.all (fun ch => ch != ' ' && ch != '(' && ch != ')'))) = true ∧
    ∀ t : Table, (groupedAgg t).cols = summaryCols :=
  ⟨by decide, by decide, by decide, fun _ => rfl⟩

/-! ## Group keys: sortedness, distinctness, membership (claim C10) -/

theorem strLtChars_iff (as bs : List Char) :
    strLtChars as bs = true ↔ List.Lex (· < ·) as bs := by
  induction as generalizing bs with
  | nil =>
    cases bs with
    | nil =>
      simp only [strLtChars]
      constructor
      · intro h
        exact absurd h (by simp)
      · intro h
        cases h
    | cons b bs =>
      simp only [strLtChars]
      constructor
      · intro _
        exact List.Lex.nil
      · intro _
        trivial
  | cons a as ih =>
    cases bs with
    | nil =>
      simp only [strLtChars]
      constructor
      · intro h
        exact absurd h (by simp)
      · intro h
        cases h
    | cons b bs =>
      by_cases hab : a < b
      · simp only [strLtChars, if_pos hab]
        constructor
        · intro _
          exact List.Lex.rel hab
        · intro _
          trivial
      · by_cases hba : b < a
        · simp only [strLtChars, if_neg hab, if_pos hba]
          constructor
          · intro h
            exact absurd h (by simp)
          · intro h
            cases h with
            | cons h' => exact absurd hba (lt_irrefl a)
            | rel h' => exact absurd h' hab
        · have heq : a = b := le_antisymm (not_lt.mp hba) (not_lt.mp hab)
          subst heq
          simp only [strLtChars, if_neg hab, if_neg hba]
          rw [ih bs]
          constructor
          · intro h
            exact List.Lex.cons h
          · intro h
            cases h with
            | cons h' => exact h'
            | rel h' => exact absurd h' hab

theorem strLt_iff (a b : String) : strLt a b = true ↔ a < b := by
  rw [String.lt_iff_toList_lt]
  exact strLtChars_iff a.toList b.toList

theorem keyLe_iff (a b : String) : keyLe a b ↔ a ≤ b := by
  constructor
  · intro h
    rw [← not_lt]
    intro hlt
    have := (strLt_iff b a).mpr hlt
    rw [keyLe] at h
    rw [h] at this
    exact Bool.false_ne_true this
  · intro h
    show strLt b a = false
    cases hb : strLt b a
    · rfl
    · exact absurd ((strLt_iff b a).mp hb) (not_lt.mpr h)

instance : IsTotal String keyLe :=
  ⟨fun a b => by
    rw [keyLe_iff, keyLe_iff]
    exact le_total a b⟩

instance : IsTrans String keyLe :=
  ⟨fun a b c h1 h2 =>
    (keyLe_iff a c).mpr (le_trans ((keyLe_iff a b).mp h1) ((keyLe_iff b c).mp h2))⟩

theorem mem_groupKeys (t : Table) (g : String) :
    g ∈ groupKeys t ↔ ∃ r, r ∈ t.rows ∧ keyOf? t r = some g := by
  unfold groupKeys
  rw [List.mem_insertionSort, List.mem_dedup, List.mem_filterMap]

theorem groupKeys_nodup (t : Table) : (groupKeys t).Nodup :=
  ((List.perm_insertionSort _ _).nodup_iff).mpr (List.nodup_dedup _)

theorem groupKeys_sorted_lt (t : Table) : (groupKeys t).Sorted (· < ·) := by
  have h1 : (groupKeys t).Sorted (· ≤ ·) :=
    (List.sorted_insertionSort keyLe _).imp (fun h => (keyLe_iff _ _).mp h)
  exact List.Sorted.lt_of_le h1 (groupKeys_nodup t)

/-- C10: the summary rows appear in strictly ascending (lexicographic) order of
their group key: the key list is sorted under `<`, the i-th row is the summary
row of the i-th key (so the exported CSV data lines follow the same order), and
a key appears exactly when some row of the cleaned table carries it in the
group column — rows with a missing group key contribute nothing. -/
theorem summary_rows_sorted_and_no_missing_key (t : Table) :
    (groupedAgg t).keys.Sorted (· < ·) ∧
    (groupedAgg t).rows.length = (groupedAgg t).keys.length ∧
    (∀ i, i < (groupedAgg t).keys.length →
      (groupedAgg t).rows.getD i [] = summaryRow t ((groupedAgg t).keys.getD i "")) ∧
    (csvDataLines (groupedAgg t)).length = (groupedAgg t).keys.length ∧
    ∀ g, g ∈ (groupedAgg t).keys ↔ ∃ r, r ∈ t.rows ∧ keyOf? t r = some g := by
  refine ⟨groupKeys_sorted_lt t, by simp [groupedAgg], ?_, ?_, fun g => mem_groupKeys t g⟩
  · intro i hi
    exact getD_map_of_lt _ _ i hi [] ""
  · show (csvDataLines (groupedAgg t)).length = (groupKeys t).length
    unfold csvDataLines
    have hzip : ((groupedAgg t).keys.zip (groupedAgg t).rows).length = (groupKeys t).length := by
      simp [groupedAgg]
    rw [← hzip]
    generalize (groupedAgg t).keys.zip (groupedAgg t).rows = l
    generalize 0 = n
    induction l generalizing n with
    | nil => rfl
    | cons p l ih =>
      cases p with
      | mk k r => simpa [csvDataLinesAux] using ih (n + 1)

/-- Witness for C10: at the example table the keys are sorted, and the iff
yields that `A` is a key because row 1 carries it. -/
theorem summary_rows_sorted_witness :
    (groupedAgg tExClean).keys.Sorted (· < ·) ∧ "A" ∈ (groupedAgg tExClean).keys :=
  ⟨(summary_rows_sorted_and_no_missing_key tExClean).1,
    ((summary_rows_sorted_and_no_missing_key tExClean).2.2.2.2 "A").mpr
      ⟨tExClean.rows.getD 1 [], by decide, by decide⟩⟩

/-! ## The count statistic (claim C2) -/

/-- For every target field, looking up its `_count` identifier among the
summary columns lands on the (field, `count`) slot of the cross-product. -/
theorem col_lookup_count :
    (columns_to_convert.all (fun f =>
      match idxOf? (flatName f "count") summaryCols with
      | some j => decide (summaryColsRaw.getD j ("", "") = (f, "count")) &&
          decide (j < summaryColsRaw.length)
      | none => false)) = true := by decide

theorem aggStat_count (cells : List Cell) :
    aggStat "count" cells =
      Cell.num (((cells.filter (fun c => c != Cell.missing)).length : ℚ)) := rfl

/-- C2: for every target field `f` and every group key `g` appearing in the
cleaned table, the summary entry under the `<f>_count` identifier is exactly
the number of non-missing `f`-cells among the rows whose group key is `g`
(not the total row count of the partition). -/
theorem count_entry_counts_nonmissing (t : Table) (f : String)
    (hf : f ∈ columns_to_convert) (g : String)
    (hg : ∃ r, r ∈ t.rows ∧ keyOf? t r = some g) :
    summaryEntry? (groupedAgg t) g (flatName f "count") =
      some (Cell.num ((((groupRows t g).filter
        (fun r => rowCell t r f != Cell.missing)).length : ℚ))) := by
  have hgk : g ∈ groupKeys t := (mem_groupKeys t g).mpr hg
  obtain ⟨i, hI, hIlt, hIget⟩ := idxOf_mem_spec g (groupKeys t) hgk
  have hall := List.all_eq_true.mp col_lookup_count f hf
  cases hj : idxOf? (flatName f "count") summaryCols with
  | none => rw [hj] at hall; exact absurd hall (by simp)
  | some j =>
    rw [hj] at hall
    simp only [Bool.and_eq_true, decide_eq_true_eq] at hall
    obtain ⟨hjp, hjlt⟩ := hall
    show (match idxOf? g (groupKeys t), idxOf? (flatName f "count") summaryCols with
      | some i, some j =>
          some ((((groupKeys t).map (summaryRow t)).getD i []).getD j Cell.missing)
      | _, _ => none) = _
    rw [hI, hj]
    have hrow : ((groupKeys t).map (summaryRow t)).getD i [] =
        summaryRow t ((groupKeys t).getD i "") :=
      getD_map_of_lt _ _ i hIlt [] ""
    show some ((((groupKeys t).map (summaryRow t)).getD i []).getD j Cell.missing) = _
    rw [hrow, hIget]
    show some ((summaryColsRaw.map
      (fun p => aggStat p.2 (fieldValues t g p.1))).getD j Cell.missing) = _
    rw [getD_map_of_lt _ _ j hjlt Cell.missing ("", ""), hjp, aggStat_count]
    unfold fieldValues
    rw [List.filter_map, List.length_map]
    rfl

/-- Witness for C2: at the example table, field `Revenue` and group `A`. -/
theorem count_entry_counts_nonmissing_witness :
    ("Revenue" ∈ columns_to_convert ∧
      ∃ r, r ∈ tExClean.rows ∧ keyOf? tExClean r = some "A") ∧
    summaryEntry? (groupedAgg tExClean) "A" (flatName "Revenue" "count") =
      some (Cell.num ((((groupRows tExClean "A").filter
        (fun r => rowCell tExClean r "Revenue" != Cell.missing)).length : ℚ))) :=
  ⟨⟨by decide, ⟨tExClean.rows.getD 1 [], by decide, by decide⟩⟩,
    count_entry_counts_nonmissing tExClean "Revenue" (by decide) "A"
      ⟨tExClean.rows.getD 1 [], by decide, by decide⟩⟩

/-! ## The reactive update pipeline (claims C5, C8, C9) -/

theorem find_map_pair (h : String → Nat) (l : List String) (g : String) (hg : g ∈ l) :
    (l.map (fun k => (k, h k))).find? (fun p => p.1 == g) = some (g, h g) := by
  induction l with
  | nil => simp at hg
  | cons a l ih =>
    by_cases hag : a = g
    · subst hag
      rw [List.map_cons, List.find?_cons_of_pos _ (by simp)]
    · have hmem : g ∈ l := by
        rcases List.mem_cons.mp hg with h' | h'
        · exact absurd h'.symm hag
        · exact h'
      rw [List.map_cons, List.find?_cons_of_neg _ (by simp [hag])]
      exact ih hmem

/-- C5: for every group key `g` appearing in the cleaned table, the bar-chart
(CountSpec) datum bound to `g` is the total number of cleaned-table rows whose
group key is `g` — counted over all rows, including those whose selected field
value is missing — and the whole CountSpec is independent of the selected
field (it is computed from the cleaned table, not from the summary table). -/
theorem countspec_partition_row_counts (t : Table) (g : String)
    (hg : ∃ r, r ∈ t.rows ∧ keyOf? t r = some g) (f f' : String) :
    ((update_graphs t f).2.data.find? (fun p => p.1 == g)) =
      some (g, (t.rows.filter (fun r => keyOf? t r == some g)).length) ∧
    (update_graphs t f).2 = (update_graphs t f').2 := by
  constructor
  · have hgk : g ∈ groupKeys t := (mem_groupKeys t g).mpr hg
    show (groupSizes t).find? (fun p => p.1 == g) = _
    unfold groupSizes
    exact find_map_pair (fun k => (groupRows t k).length) (groupKeys t) g hgk
  · rfl

/-- Witness for C5: group `A` of the example has two rows, one of whose
`Revenue` cells is missing — the CountSpec still counts both. -/
theorem countspec_partition_row_counts_witness :
    (∃ r, r ∈ tExClean.rows ∧ keyOf? tExClean r = some "A") ∧
    ((update_graphs tExClean "Revenue").2.data.find? (fun p => p.1 == "A")) =
      some ("A", (tExClean.rows.filter
        (fun r => keyOf? tExClean r == some "A")).length) ∧
    (update_graphs tExClean "Revenue").2 = (update_graphs tExClean "EBIT").2 :=
  ⟨⟨tExClean.rows.getD 1 [], by decide, by decide⟩,
    countspec_partition_row_counts tExClean "A"
      ⟨tExClean.rows.getD 1 [], by decide, by decide⟩ "Revenue" "EBIT"⟩

/-- C8: for every field of the target list, two selection-change invocations on
the same state produce identical box and bar specs — same titles, same axis
bindings, same per-group data — and the state (the cleaned and summary tables)
is never modified by the pipeline. -/
theorem update_graphs_deterministic (st : AppState) (f : String)
    (hf : f ∈ columns_to_convert) :
    (update_graphs_event st f).1 = (update_graphs_event (update_graphs_event st f).2 f).1 ∧
    (update_graphs_event st f).2 = st ∧
    (update_graphs_event st f).1.1.title =
      (update_graphs_event (update_graphs_event st f).2 f).1.1.title ∧
    (update_graphs_event st f).1.1.xField =
      (update_graphs_event (update_graphs_event st f).2 f).1.1.xField ∧
    (update_graphs_event st f).1.1.yField =
      (update_graphs_event (update_graphs_event st f).2 f).1.1.yField ∧
    (update_graphs_event st f).1.2.data =
      (update_graphs_event (update_graphs_event st f).2 f).1.2.data :=
  ⟨rfl, rfl, rfl, rfl, rfl, rfl⟩

/-- Witness for C8 at the example state and the field `Revenue`. -/
theorem update_graphs_deterministic_witness :
    "Revenue" ∈ columns_to_convert ∧
    (update_graphs_event stEx "Revenue").1 =
      (update_graphs_event (update_graphs_event stEx "Revenue").2 "Revenue").1 :=
  ⟨by decide, (update_graphs_deterministic stEx "Revenue" (by decide)).1⟩

/-- C9 counterexample: in the example table group `B` appears before group `A`,
yet the CountSpec data is in ascending key order `[A, B]`, not first-appearance
order `[B, A]`. -/
theorem countspec_not_first_appearance_order :
    ((update_graphs tExClean "Revenue").2.data.map Prod.fst) ≠
      firstAppearanceKeys tExClean ∧
    firstAppearanceKeys tExClean = ["B", "A"] ∧
    ((update_graphs tExClean "Revenue").2.data.map Prod.fst) = ["A", "B"] := by decide

/-- C9 (amended): the box plot's per-group data follows the first appearance
of each group key in the cleaned table, while the bar chart's per-group data
is in ascending sorted key order (pandas `groupby` sorts its keys). -/
theorem chart_data_group_orders (t : Table) (f : String) :
    boxGroupOrder (update_graphs t f).1 = firstAppearanceKeys t ∧
    ((update_graphs t f).2.data.map Prod.fst) = groupKeys t ∧
    groupKeys t = List.insertionSort keyLe (firstAppearanceKeys t) := by
  refine ⟨?_, ?_, rfl⟩
  · show ((colValues t groupKeyCol).filterMap cellStr?).dedup = _
    unfold colValues firstAppearanceKeys
    rw [List.filterMap_map]
    rfl
  · show ((groupKeys t).map (fun g => (g, (groupRows t g).length))).map Prod.fst = _
    rw [List.map_map]
    have hid : (Prod.fst ∘ fun g => (g, (groupRows t g).length)) = (id : String → String) :=
      rfl
    rw [hid, List.map_id]

/-! ## The export stage (claims C6, C7) -/

theorem csvDataLinesAux_length (l : List (String × List Cell)) (n : Nat) :
    (csvDataLinesAux n l).length = l.length := by
  induction l generalizing n with
  | nil => rfl
  | cons p l ih =>
    cases p with
    | mk k r => simpa [csvDataLinesAux] using ih (n + 1)

theorem csvDataLinesAux_getD (l : List (String × List Cell)) (n i : Nat)
    (h : i < l.length) :
    (csvDataLinesAux n l).getD i "" =
      joinSep "," (natRepr (n + i) :: csvField (l.getD i ("", [])).1 ::
        (l.getD i ("", [])).2.map (fun c => csvField (renderCell c))) := by
  induction l generalizing n i with
  | nil => simp at h
  | cons p l ih =>
    cases p with
    | mk k r =>
      cases i with
      | zero => simp [csvDataLinesAux]
      | succ m =>
        have hrec := ih (n + 1) m (by simpa using h)
        simp only [csvDataLinesAux, List.getD_cons_succ]
        rw [hrec]
        have harg : n + 1 + m = n + (m + 1) := by omega
        rw [harg]

theorem getD_zip (ks : List String) (rs : List (List Cell)) (i : Nat)
    (h1 : i < ks.length) (h2 : i < rs.length) :
    (ks.zip rs).getD i ("", []) = (ks.getD i "", rs.getD i []) := by
  induction ks generalizing rs i with
  | nil => simp at h1
  | cons a ks ih =>
    cases rs with
    | nil => simp at h2
    | cons b rs =>
      cases i with
      | zero => rfl
      | succ m =>
        simpa [List.zip_cons_cons] using
          ih rs m (by simpa using h1) (by simpa using h2)

/-- The first character of a string (default when empty). -/
def firstChar (s : String) : Char := s.toList.headD ' '

theorem ne_of_firstChar_ne (s t : String) (h : firstChar s ≠ firstChar t) : s ≠ t :=
  fun he => h (he ▸ rfl)

/-- C6 counterexample: at the example state the export's header row is not the
group-key column followed by the summary identifiers: the produced text begins
with the comma of an extra leading empty identifier (the positional index
pandas writes by default), while the claimed header would begin with the
group-key column name. -/
theorem export_header_counterexample :
    (download_csv stEx 1).1.1 = "descriptive_statistics.csv" ∧
    firstChar (download_csv stEx 1).1.2 = ',' ∧
    firstChar (joinSep "," (csvField groupKeyCol :: stEx.grouped.cols.map csvField)) = 'P' ∧
    firstLine (download_csv stEx 1).1.2 ≠
      joinSep "," (csvField groupKeyCol :: stEx.grouped.cols.map csvField) :=
  ⟨rfl, by decide, by decide,
    ne_of_firstChar_ne _ _ (by decide)⟩

/-- C6 (amended): every export returns CSV text named
`descriptive_statistics.csv` whose header row is an empty identifier for the
positional index, then the group-key column, then the summary column
identifiers; each data row is the positional index, then the group key, then
the corresponding summary row. The state is untouched. -/
theorem export_csv_format (st : AppState) (n : Nat)
    (hlen : st.grouped.keys.length = st.grouped.rows.length) :
    (download_csv st n).1.1 = "descriptive_statistics.csv" ∧
    (download_csv st n).2 = st ∧
    (download_csv st n).1.2 =
      joinSep "\n" ((joinSep "," ("" :: csvField groupKeyCol :: st.grouped.cols.map csvField))
        :: csvDataLines st.grouped) ++ "\n" ∧
    (csvDataLines st.grouped).length = st.grouped.keys.length ∧
    ∀ i, i < st.grouped.keys.length →
      (csvDataLines st.grouped).getD i "" =
        joinSep "," (natRepr i :: csvField (st.grouped.keys.getD i "") ::
          (st.grouped.rows.getD i []).map (fun c => csvField (renderCell c))) := by
  refine ⟨rfl, rfl, rfl, ?_, ?_⟩
  · unfold csvDataLines
    rw [csvDataLinesAux_length, List.length_zip, hlen, min_self, ← hlen]
  · intro i hi
    unfold csvDataLines
    have hz : i < (st.grouped.keys.zip st.grouped.rows).length := by
      rw [List.length_zip]
      omega
    rw [csvDataLinesAux_getD _ 0 i hz,
      getD_zip st.grouped.keys st.grouped.rows i hi (by omega)]
    simp

/-- Witness for C6 at the example state. -/
theorem export_csv_format_witness :
    stEx.grouped.keys.length = stEx.grouped.rows.length ∧
    ((download_csv stEx 1).1.1 = "descriptive_statistics.csv" ∧
     (download_csv stEx 1).2 = stEx ∧
     (download_csv stEx 1).1.2 =
       joinSep "\n" ((joinSep "," ("" :: csvField groupKeyCol :: stEx.grouped.cols.map csvField))
         :: csvDataLines stEx.grouped) ++ "\n" ∧
     (csvDataLines stEx.grouped).length = stEx.grouped.keys.length ∧
     ∀ i, i < stEx.grouped.keys.length →
       (csvDataLines stEx.grouped).getD i "" =
         joinSep "," (natRepr i :: csvField (stEx.grouped.keys.getD i "") ::
           (stEx.grouped.rows.getD i []).map (fun c => csvField (renderCell c)))) :=
  ⟨by decide, export_csv_format stEx 1 (by decide)⟩

/-- C7: the export stage is a pure function of the summary table: two
invocations with any click counts yield the same filename and byte-identical
CSV text, and neither invocation modifies the state. -/
theorem export_idempotent_pure (st : AppState) (n1 n2 : Nat) :
    (download_csv st n1).1 = (download_csv st n2).1 ∧
    (download_csv st n1).2 = st ∧
    (download_csv (download_csv st n1).2 n2).1 = (download_csv st n1).1 :=
  ⟨rfl, rfl, rfl⟩

end ScaleupApp
